import Mathlib

set_option autoImplicit false

namespace CompressDistricts

/-- JSON-like values, the dynamic data manipulated by compress-districts.py.
Objects are insertion-ordered association lists, matching Python dicts;
numbers are modelled as exact rationals. -/
inductive J : Type where
  | null : J
  | bool : Bool → J
  | num : ℚ → J
  | str : String → J
  | arr : List J → J
  | obj : List (String × J) → J

/-- Python truthiness of a value, as used by the `if not props` guard and
the geometry test of the source. -/
def truthy : J → Bool
  | .null => false
  | .bool b => b
  | .num q => q != 0
  | .str s => s != ""
  | .arr xs => !xs.isEmpty
  | .obj kvs => !kvs.isEmpty

/-- Python dict read `d[k]` on an insertion-ordered association list
(real dicts have unique keys, so the first match is the binding). -/
def lookup (kvs : List (String × J)) (k : String) : Option J :=
  (kvs.find? (fun kv => kv.1 == k)).map (fun kv => kv.2)

/-- Python dict write `d[k] = v`: if the key is present its value is
replaced in place (insertion position kept), otherwise the new binding is
appended at the end. -/
def dictSet (kvs : List (String × J)) (k : String) (v : J) : List (String × J) :=
  if kvs.any (fun kv => kv.1 == k) then
    kvs.map (fun kv => if kv.1 == k then (k, v) else kv)
  else
    kvs ++ [(k, v)]

/-- PROPERTY_MAP from compress-districts.py, lines 16-28, byte for byte:
the first key is the mojibake string `Nombre cient` U+221A U+2260 `fico`
that appears in the source (a corrupted form of the Spanish field name);
`none` is the removal marker (Python None). -/
def PROPERTY_MAP : List (String × Option String) :=
  [("Nombre cient√≠fico", some "sn"),
   ("CODIGO_ESP", some "cn"),
   ("diameter", some "d"),
   ("height", some "h"),
   ("NBRE_DTO", some "dt"),
   ("NBRE_BARRI", some "nb"),
   ("species", some "sn"),
   ("common_name", some "cn"),
   ("ASSETNUM", none),
   ("NUM_DTO", none),
   ("NUM_BARRIO", none)]

/-- Lookup in PROPERTY_MAP: `some (some s)` = key present, renamed to `s`;
`some none` = key present, mapped to the removal marker;
`none` = key absent from the table. -/
def lookupPM (k : String) : Option (Option String) :=
  (PROPERTY_MAP.find? (fun kv => kv.1 == k)).map (fun kv => kv.2)

/-- Python test `value is None or value == ""` from line 38 of the source:
true exactly for None and for the empty string. -/
def isNullOrEmptyStr : J → Bool
  | .null => true
  | .str s => s == ""
  | _ => false

/-- One iteration of the loop body of compress_properties (lines 36-51):
skip null/empty values, skip keys mapped to the removal marker, otherwise
store the value under the short key (when in the table) or the original key. -/
def compressStep (compressed : List (String × J)) (kv : String × J) :
    List (String × J) :=
  if isNullOrEmptyStr kv.2 then compressed
  else
    match lookupPM kv.1 with
    | some none => compressed
    | some (some short) => dictSet compressed short kv.2
    | none => dictSet compressed kv.1 kv.2

/-- compress_properties (lines 30-53) on a dict argument: fold the loop body
over the entries in iteration (= insertion) order, starting from the empty
dict `compressed`. The `if not props` guard returns the empty dict for an
empty argument, which the fold also does. -/
def compress_properties (props : List (String × J)) : List (String × J) :=
  props.foldl compressStep []

/-- compress_properties on an arbitrary value, as the pipeline calls it:
a falsy argument (None, empty dict, and the other falsy values) returns the
empty dict via the `if not props` guard; a truthy dict runs the loop; a
truthy non-dict raises on `.items()`, modelled as failure. -/
def compress_properties_val (props : J) : Option J :=
  if !truthy props then some (.obj [])
  else
    match props with
    | .obj kvs => some (.obj (compress_properties kvs))
    | _ => none

/-- Floor of a rational, computed on the numerator and denominator
(`Int.fdiv` is floor division and the denominator is positive). -/
def ratFloor (q : ℚ) : ℤ := Int.fdiv q.num (q.den : ℤ)

/-- Round half to even to the nearest integer: the rounding of the Python
round primitive, taken over exact rationals. -/
def rnd_half_even (x : ℚ) : ℤ :=
  let n : ℤ := ratFloor x
  if x - n < 1/2 then n
  else if 1/2 < x - n then n + 1
  else if n % 2 = 0 then n else n + 1

/-- Python `round(c, 6)` modelled exactly over the rationals: scale by 10^6,
round half to even to an integer, scale back. -/
def round6 (c : ℚ) : ℚ := (rnd_half_even (c * 1000000) : ℚ) / 1000000

/-- Python `round(c, 6)` applied to one element of a flat coordinate list:
defined on numbers, raises (modelled as `none`) on anything else. -/
def roundLeaf : J → Option J
  | .num q => some (.num (round6 q))
  | _ => none

mutual
/-- round_coordinates (lines 55-59). `coords[0]` is inspected first, so an
empty list (IndexError) and every non-list argument (TypeError/KeyError)
fail, modelled as `none`. If the first element is a list the function maps
itself over the elements, otherwise it maps `round(c, 6)` over them. -/
def round_coordinates : J → Option J
  | .arr (x :: xs) =>
    match x with
    | .arr _ => (roundEach (x :: xs)).map J.arr
    | _ => ((x :: xs).mapM roundLeaf).map J.arr
  | _ => none

/-- The list comprehension `[round_coordinates(c, precision) for c in coords]`
of line 58: the first failure aborts. -/
def roundEach : List J → Option (List J)
  | [] => some []
  | c :: cs => do
    let r ← round_coordinates c
    let rs ← roundEach cs
    pure (r :: rs)
end

mutual
/-- Structure-preserving leaf rounding: apply round6 to every numeric leaf
and keep everything else unchanged. On the trees round_coordinates accepts,
round_coordinates computes exactly this map. -/
def roundIdeal : J → J
  | .num q => .num (round6 q)
  | .arr xs => .arr (roundIdealList xs)
  | .null => .null
  | .bool b => .bool b
  | .str s => .str s
  | .obj kvs => .obj kvs

/-- roundIdeal mapped over a list of values. -/
def roundIdealList : List J → List J
  | [] => []
  | x :: xs => roundIdeal x :: roundIdealList xs
end

/-- The nesting shape of a value: a list node keeps the shapes of its
elements in order, anything else is a leaf. Equal shapes mean equal nesting
structure and equal element counts at every level. -/
inductive JShape : Type where
  | leaf : JShape
  | node : List JShape → JShape

mutual
/-- Shape of a value. -/
def shape : J → JShape
  | .arr xs => .node (shapeList xs)
  | .null => .leaf
  | .bool _ => .leaf
  | .num _ => .leaf
  | .str _ => .leaf
  | .obj _ => .leaf

/-- Shapes of a list of values, in order. -/
def shapeList : List J → List JShape
  | [] => []
  | x :: xs => shape x :: shapeList xs
end

/-- Numeric test. -/
def isNum : J → Bool
  | .num _ => true
  | _ => false

/-- Homogeneously nested, nonempty coordinate tree of the given depth:
at depth 0 a nonempty list of numbers (a position), at depth n+1 a nonempty
list of homogeneous trees of depth n. This is the shape GeoJSON coordinate
arrays always have, the assumption named in the spec. -/
def homog : Nat → J → Bool
  | 0, .arr xs => !xs.isEmpty && xs.all isNum
  | n + 1, .arr xs => !xs.isEmpty && xs.all (homog n)
  | _, .null => false
  | _, .bool _ => false
  | _, .num _ => false
  | _, .str _ => false
  | _, .obj _ => false

/-- Lines 70-80 of compress_geojson applied to one feature. The feature is
a dict: `properties`, when present as a key, is replaced by the result of
compress_properties; then, when `geometry` is present and truthy and has a
`coordinates` key, that key is replaced by the result of round_coordinates.
Dynamic failures (attribute or index errors on values of the wrong type,
and failures inside round_coordinates) are modelled as `none`. -/
def compressFeature (f : J) : Option J :=
  match f with
  | .obj kvs =>
    match
      (match lookup kvs "properties" with
       | some p => (compress_properties_val p).map (dictSet kvs "properties")
       | none => some kvs) with
    | none => none
    | some kvs1 =>
      match lookup kvs1 "geometry" with
      | some g =>
        if truthy g then
          match g with
          | .obj gkvs =>
            match lookup gkvs "coordinates" with
            | some c =>
              (round_coordinates c).map (fun c2 =>
                J.obj (dictSet kvs1 "geometry" (J.obj (dictSet gkvs "coordinates" c2))))
            | none => some (.obj kvs1)
          | _ => none
        else some (.obj kvs1)
      | none => some (.obj kvs1)
  | _ => none

/-- Lines 68-81 of compress_geojson: the in-memory document transform.
When the root dict has a `features` key holding a list, every element is
rewritten by compressFeature (the list object is mutated in place, so the
key keeps its position); without a `features` key the document is returned
untouched. A non-dict root or a non-list `features` value is modelled as
failure. -/
def compressDoc (data : J) : Option J :=
  match data with
  | .obj kvs =>
    match lookup kvs "features" with
    | some (.arr fl) =>
      (fl.mapM compressFeature).map (fun fl2 => J.obj (dictSet kvs "features" (.arr fl2)))
    | some _ => none
    | none => some (.obj kvs)
  | _ => none

/-- compress_geojson (lines 61-95) over a file system modelled as a map
from path to parsed document, with an arbitrary size function standing for
the byte length the compact serialization of a document occupies on disk.
The steps in source order: read and parse the input path, transform the
document, write the result to the output path, and only then stat first the
input path and then the output path; the returned pair is
(original_size, compressed_size) as the source names them. -/
def compress_geojson_model (size : J → ℕ) (input_path output_path : String)
    (fs : String → Option J) : Option ((ℕ × ℕ) × (String → Option J)) :=
  match fs input_path with
  | none => none
  | some data =>
    match compressDoc data with
    | none => none
    | some data2 =>
      let fs2 : String → Option J := fun p => if p = output_path then some data2 else fs p
      match fs2 input_path, fs2 output_path with
      | some a, some b => some ((size a, size b), fs2)
      | _, _ => none

/-- Glob pattern `district_*.geojson` on a file name: the name starts with
`district_` and ends with `.geojson` (for names long enough that both fit,
which prefix and suffix together force, this is exactly the glob). -/
def matchesGlob (name : String) : Bool :=
  name.startsWith "district_" && name.endsWith ".geojson"

/-- Insert into a sorted list of strings, keeping order. -/
def insertStr (x : String) : List String → List String
  | [] => [x]
  | y :: ys => if x ≤ y then x :: y :: ys else y :: insertStr x ys

/-- Sort file names ascending, the `sorted(...)` of line 106. -/
def sortStrs : List String → List String
  | [] => []
  | x :: xs => insertStr x (sortStrs xs)

/-- main (lines 97-132) over the modelled file system. `dirExists` is the
`districts_dir.exists()` test and `names` the directory listing. The result
carries the final file system, the processed files in order, and the two
aggregate byte counters. The two early returns (missing directory, no
matching files) yield the untouched file system and empty totals. Each
matched file is compressed in place (output path = input path, line 118). -/
def main_model (size : J → ℕ) (dirExists : Bool) (names : List String)
    (fs : String → Option J) :
    Option ((String → Option J) × List String × ℕ × ℕ) :=
  if dirExists = false then some (fs, [], 0, 0)
  else
    let files := sortStrs (names.filter matchesGlob)
    if files.isEmpty then some (fs, [], 0, 0)
    else
      files.foldlM
        (fun st name =>
          (compress_geojson_model size name name st.1).map
            (fun r => (r.2, st.2.1 ++ [name], st.2.2.1 + r.1.1, st.2.2.2 + r.1.2)))
        (fs, [], 0, 0)

/-- The output key an entry with the given source key is emitted under,
in the words of the spec: `none` when the rename table removes the key,
the short key when the table renames it, the key itself when absent from
the table. -/
def outKey (k : String) : Option String :=
  match lookupPM k with
  | some none => none
  | some (some s) => some s
  | none => some k

/-- Modelled from the spec wording of the Property Compressor contract:
the value the output mapping gives to a key `k` is the value of the last
entry of the input (in iteration order) that survives the null/empty filter
and resolves to the output key `k`; absent when no entry does. -/
def specCompressLookup (props : List (String × J)) (k : String) : Option J :=
  (props.reverse.find?
    (fun kv => !isNullOrEmptyStr kv.2 && outKey kv.1 == some k)).map (fun kv => kv.2)

/-- State-passing form of compress_properties for the aliasing claim: the
pair is (the props argument as left by the call, the dict built). The loop
body only ever assigns into the local dict `compressed`, so the props
component is threaded through unchanged. -/
def compress_properties_st (props : List (String × J)) :
    List (String × J) × List (String × J) :=
  props.foldl (fun st kv => (st.1, compressStep st.2 kv)) (props, [])

lemma lookup_cons (k0 : String) (v0 : J) (t : List (String × J)) (k : String) :
    lookup ((k0, v0) :: t) k = if (k0 == k) = true then some v0 else lookup t k := by
  by_cases h : (k0 == k) = true
  · simp [lookup, List.find?, h]
  · simp [lookup, List.find?, h]

lemma lookup_map_set_self (m : List (String × J)) (k : String) (v : J)
    (h : m.any (fun kv => kv.1 == k) = true) :
    lookup (m.map (fun kv => if kv.1 == k then (k, v) else kv)) k = some v := by
  induction m with
  | nil => simp at h
  | cons a t ih =>
    by_cases ha : (a.1 == k) = true
    · simp only [List.map_cons, if_pos ha]
      rw [lookup_cons]
      simp
    · have h2 : t.any (fun kv => kv.1 == k) = true := by
        simpa [List.any_cons, ha] using h
      simp only [List.map_cons, if_neg ha]
      rcases a with ⟨a1, a2⟩
      rw [lookup_cons]
      simp only [ha, if_false]
      exact ih h2

lemma lookup_append_fresh (m : List (String × J)) (k : String) (v : J)
    (h : m.any (fun kv => kv.1 == k) = false) :
    lookup (m ++ [(k, v)]) k = some v := by
  induction m with
  | nil => simp [lookup, List.find?]
  | cons a t ih =>
    rcases a with ⟨a1, a2⟩
    have ha : (a1 == k) = false := by
      by_contra hc
      simp only [List.any_cons, Bool.or_eq_false_iff] at h
      exact absurd h.1 hc
    have ht : t.any (fun kv => kv.1 == k) = false := by
      simp only [List.any_cons, Bool.or_eq_false_iff] at h
      exact h.2
    rw [List.cons_append, lookup_cons]
    simp only [ha, if_false]
    exact ih ht

lemma lookup_dictSet_self (m : List (String × J)) (k : String) (v : J) :
    lookup (dictSet m k v) k = some v := by
  unfold dictSet
  by_cases h : m.any (fun kv => kv.1 == k) = true
  · rw [if_pos h]
    exact lookup_map_set_self m k v h
  · rw [if_neg h]
    refine lookup_append_fresh m k v ?_
    simp only [Bool.not_eq_true] at h
    exact h

lemma lookup_map_set_other (m : List (String × J)) (k k2 : String) (v : J)
    (hne : (k == k2) = false) :
    lookup (m.map (fun kv => if kv.1 == k then (k, v) else kv)) k2 = lookup m k2 := by
  induction m with
  | nil => rfl
  | cons a t ih =>
    rcases a with ⟨a1, a2⟩
    by_cases ha : (a1 == k) = true
    · have ha1 : a1 = k := by simpa using ha
      simp only [List.map_cons, if_pos ha]
      rw [lookup_cons, lookup_cons]
      subst ha1
      simp only [hne, if_false]
      exact ih
    · simp only [List.map_cons, if_neg ha]
      rw [lookup_cons, lookup_cons]
      by_cases h2 : (a1 == k2) = true
      · simp [h2]
      · simp only [h2, if_false]
        exact ih

lemma lookup_dictSet_other (m : List (String × J)) (k k2 : String) (v : J)
    (hne : (k == k2) = false) :
    lookup (dictSet m k v) k2 = lookup m k2 := by
  unfold dictSet
  by_cases h : m.any (fun kv => kv.1 == k) = true
  · rw [if_pos h]
    exact lookup_map_set_other m k k2 v hne
  · rw [if_neg h]
    simp [lookup, List.find?_append, hne]

lemma specCompressLookup_nil (k : String) : specCompressLookup [] k = none := rfl

lemma specCompressLookup_cons (k0 : String) (v0 : J) (t : List (String × J)) (k : String) :
    specCompressLookup ((k0, v0) :: t) k =
      match specCompressLookup t k with
      | some v => some v
      | none =>
        if (!isNullOrEmptyStr v0 && outKey k0 == some k) = true then some v0 else none := by
  simp only [specCompressLookup, List.reverse_cons, List.find?_append]
  cases hf : (t.reverse.find? fun kv => !isNullOrEmptyStr kv.2 && outKey kv.1 == some k) with
  | none =>
    by_cases hp : (!isNullOrEmptyStr v0 && outKey k0 == some k) = true
    · simp [hf, List.find?, hp]
    · simp [hf, List.find?, hp]
  | some a => simp [hf]

lemma compressStep_skip_null (acc : List (String × J)) (kv : String × J)
    (h : isNullOrEmptyStr kv.2 = true) : compressStep acc kv = acc := by
  simp [compressStep, h]

lemma compressStep_skip_removed (acc : List (String × J)) (k : String) (v : J)
    (hv : isNullOrEmptyStr v = false) (h : lookupPM k = some none) :
    compressStep acc (k, v) = acc := by
  simp [compressStep, hv, h]

lemma compressStep_short (acc : List (String × J)) (k s : String) (v : J)
    (hv : isNullOrEmptyStr v = false) (h : lookupPM k = some (some s)) :
    compressStep acc (k, v) = dictSet acc s v := by
  simp [compressStep, hv, h]

lemma compressStep_keep (acc : List (String × J)) (k : String) (v : J)
    (hv : isNullOrEmptyStr v = false) (h : lookupPM k = none) :
    compressStep acc (k, v) = dictSet acc k v := by
  simp [compressStep, hv, h]

lemma lookup_foldl_compressStep (props : List (String × J)) (acc : List (String × J))
    (k : String) :
    lookup (props.foldl compressStep acc) k =
      match specCompressLookup props k with
      | some v => some v
      | none => lookup acc k := by
  induction props generalizing acc with
  | nil => simp [specCompressLookup_nil]
  | cons a t ih =>
    rcases a with ⟨k0, v0⟩
    rw [List.foldl_cons, ih, specCompressLookup_cons]
    cases hspec : specCompressLookup t k with
    | some v => simp
    | none =>
      have hstep : lookup (compressStep acc (k0, v0)) k =
          if (!isNullOrEmptyStr v0 && outKey k0 == some k) = true then some v0
          else lookup acc k := ?_
      · by_cases hp : (!isNullOrEmptyStr v0 && outKey k0 == some k) = true
        · simp [hstep, hp]
        · simp [hstep, hp]
      by_cases hnull : isNullOrEmptyStr v0 = true
      · rw [compressStep_skip_null acc (k0, v0) hnull]
        simp [hnull]
      · have hnull2 : isNullOrEmptyStr v0 = false := by simpa using hnull
        cases hpm : lookupPM k0 with
        | none =>
          rw [compressStep_keep acc k0 v0 hnull2 hpm]
          by_cases hk : (k0 == k) = true
          · have hk2 : k0 = k := by simpa using hk
            subst hk2
            simp [lookup_dictSet_self, hnull2, outKey, hpm]
          · have hk2 : (k0 == k) = false := by simpa using hk
            rw [lookup_dictSet_other _ _ _ _ hk2]
            simp [hnull2, outKey, hpm, hk2]
        | some o =>
          cases o with
          | none =>
            rw [compressStep_skip_removed acc k0 v0 hnull2 hpm]
            simp [hnull2, outKey, hpm]
          | some s =>
            rw [compressStep_short acc k0 s v0 hnull2 hpm]
            by_cases hk : (s == k) = true
            · have hk2 : s = k := by simpa using hk
              subst hk2
              simp [lookup_dictSet_self, hnull2, outKey, hpm]
            · have hk2 : (s == k) = false := by simpa using hk
              rw [lookup_dictSet_other _ _ _ _ hk2]
              simp [hnull2, outKey, hpm, hk2]

/-- C1: the Property Compressor computes exactly the mapping described by
the spec: an input entry contributes its value under its output key
(original key, or short key, unless removed or null/empty), and for each
output key the last contributing entry in iteration order wins.
specCompressLookup is that spec-side description, compress_properties is
the code; they give every key the same binding. -/
theorem compress_properties_matches_spec :
    ∀ (props : List (String × J)) (k : String),
      lookup (compress_properties props) k = specCompressLookup props k := by
  intro props k
  have h := lookup_foldl_compressStep props [] k
  unfold compress_properties
  rw [h]
  cases specCompressLookup props k <;> rfl

lemma pm_short_fresh :
    ∀ kv ∈ PROPERTY_MAP, ∀ s, kv.2 = some s → lookupPM s = none := by
  intro kv hkv s hs
  fin_cases hkv
  all_goals first
    | (simp only [Option.some.injEq] at hs; subst hs; rfl)
    | simp at hs

/-- The invariant of the dict built by the compress_properties loop: keys
are mutually distinct, every value passed the null/empty filter, and every
key is absent from the rename table (it is either a short key or an
unmapped original key). -/
def GoodEntries (m : List (String × J)) : Prop :=
  (m.map Prod.fst).Nodup ∧
    ∀ kv ∈ m, isNullOrEmptyStr kv.2 = false ∧ lookupPM kv.1 = none

lemma goodEntries_nil : GoodEntries [] := by
  constructor
  · simp
  · intro kv h
    simp at h

lemma goodEntries_dictSet (m : List (String × J)) (k : String) (v : J)
    (hm : GoodEntries m) (hv : isNullOrEmptyStr v = false) (hk : lookupPM k = none) :
    GoodEntries (dictSet m k v) := by
  rcases hm with ⟨hnd, hent⟩
  unfold dictSet
  by_cases h : m.any (fun kv => kv.1 == k) = true
  · rw [if_pos h]
    constructor
    · have hkeys : (m.map (fun kv => if kv.1 == k then (k, v) else kv)).map Prod.fst
          = m.map Prod.fst := by
        rw [List.map_map]
        refine List.map_congr_left ?_
        intro a _
        by_cases ha : (a.1 == k) = true
        · have : a.1 = k := by simpa using ha
          simp [Function.comp, ha, this]
        · simp [Function.comp, ha]
      rw [hkeys]
      exact hnd
    · intro kv hkv
      rcases List.mem_map.mp hkv with ⟨a, ha, rfl⟩
      by_cases hak : (a.1 == k) = true
      · simp only [hak, if_true]
        exact ⟨hv, hk⟩
      · simp only [hak, Bool.false_eq_true, if_false]
        exact hent a ha
  · rw [if_neg h]
    have h2 : m.any (fun kv => kv.1 == k) = false := by
      simp only [Bool.not_eq_true] at h
      exact h
    constructor
    · rw [List.map_append]
      rw [List.nodup_append]
      refine ⟨hnd, by simp, ?_⟩
      intro a ha hb
      simp only [List.map_cons, List.map_nil, List.mem_singleton] at hb
      subst hb
      rcases List.mem_map.mp ha with ⟨c, hc, hck⟩
      rw [List.any_eq_false] at h2
      have := h2 c hc
      simp [hck] at this
    · intro kv hkv
      rcases List.mem_append.mp hkv with hin | hin
      · exact hent kv hin
      · simp only [List.mem_singleton] at hin
        subst hin
        exact ⟨hv, hk⟩

lemma goodEntries_compressStep (m : List (String × J)) (kv : String × J)
    (hm : GoodEntries m) : GoodEntries (compressStep m kv) := by
  rcases kv with ⟨k, v⟩
  by_cases hnull : isNullOrEmptyStr v = true
  · rw [compressStep_skip_null m (k, v) hnull]
    exact hm
  · have hnull2 : isNullOrEmptyStr v = false := by simpa using hnull
    cases hpm : lookupPM k with
    | none =>
      rw [compressStep_keep m k v hnull2 hpm]
      exact goodEntries_dictSet m k v hm hnull2 hpm
    | some o =>
      cases o with
      | none =>
        rw [compressStep_skip_removed m k v hnull2 hpm]
        exact hm
      | some s =>
        rw [compressStep_short m k s v hnull2 hpm]
        refine goodEntries_dictSet m s v hm hnull2 ?_
        unfold lookupPM at hpm
        cases hfind : PROPERTY_MAP.find? (fun kv => kv.1 == k) with
        | none =>
          rw [hfind] at hpm
          simp at hpm
        | some kv0 =>
          rw [hfind] at hpm
          have h2 : kv0.2 = some s := by simpa using hpm
          exact pm_short_fresh kv0 (List.mem_of_find?_eq_some hfind) s h2

lemma goodEntries_foldl (props : List (String × J)) :
    ∀ acc : List (String × J), GoodEntries acc →
      GoodEntries (props.foldl compressStep acc) := by
  induction props with
  | nil => intro acc h; exact h
  | cons a t ih =>
    intro acc h
    rw [List.foldl_cons]
    exact ih (compressStep acc a) (goodEntries_compressStep acc a h)

lemma goodEntries_compress (props : List (String × J)) :
    GoodEntries (compress_properties props) :=
  goodEntries_foldl props [] goodEntries_nil

lemma foldl_compressStep_of_good :
    ∀ (m acc : List (String × J)), GoodEntries m →
      (∀ kv ∈ m, ∀ kv2 ∈ acc, kv2.1 ≠ kv.1) →
      m.foldl compressStep acc = acc ++ m := by
  intro m
  induction m with
  | nil => intro acc _ _; simp
  | cons a t ih =>
    intro acc hg hdis
    rcases a with ⟨k, v⟩
    rcases hg with ⟨hnd, hent⟩
    have hhead := hent (k, v) (List.mem_cons_self _ _)
    have hv : isNullOrEmptyStr v = false := hhead.1
    have hk : lookupPM k = none := hhead.2
    have hany : acc.any (fun kv => kv.1 == k) = false := by
      rw [List.any_eq_false]
      intro kv2 hkv2
      have := hdis (k, v) (List.mem_cons_self _ _) kv2 hkv2
      simpa using this
    have hstep : compressStep acc (k, v) = acc ++ [(k, v)] := by
      rw [compressStep_keep acc k v hv hk]
      unfold dictSet
      rw [if_neg (by simp [hany])]
    rw [List.foldl_cons, hstep]
    have hknotint : ∀ kv ∈ t, k ≠ kv.1 := by
      intro kv hkv hkk
      have hkin : kv.1 ∈ t.map Prod.fst := List.mem_map_of_mem Prod.fst hkv
      have : k ∉ t.map Prod.fst := by
        have := hnd
        simp only [List.map_cons] at this
        exact (List.nodup_cons.mp this).1
      rw [hkk] at this
      exact this hkin
    have hrec := ih (acc ++ [(k, v)])
      ⟨by simpa using (List.nodup_cons.mp (by simpa using hnd)).2,
       fun kv hkv => hent kv (List.mem_cons_of_mem _ hkv)⟩
      (by
        intro kv hkv kv2 hkv2
        rcases List.mem_append.mp hkv2 with hin | hin
        · exact hdis kv (List.mem_cons_of_mem _ hkv) kv2 hin
        · simp only [List.mem_singleton] at hin
          subst hin
          exact hknotint kv hkv)
    rw [hrec, List.append_assoc, List.singleton_append]

/-- C7: the Property Compressor is idempotent on its own output. Every key
of a compressed mapping is either one of the short keys of the table or an
unmapped original key, and the decidable check pm_short_fresh shows no
short key occurs as a long key of the fixed table; values of a compressed
mapping already passed the null/empty filter. A second pass therefore
re-emits every entry unchanged. -/
theorem compress_properties_idem (props : List (String × J)) :
    compress_properties (compress_properties props) = compress_properties props := by
  have hg := goodEntries_compress props
  have h := foldl_compressStep_of_good (compress_properties props) [] hg
    (by intro kv _ kv2 h2; simp at h2)
  unfold compress_properties at h ⊢
  rw [h, List.nil_append]

/-- C3: evaluating the Property Compressor at the spec scenario-1 input,
whose scientific-name key is the correctly encoded "Nombre científico".
The rename table of the source contains only the mojibake key
"Nombre cient√≠fico", so the lookup misses: the entry is passed through
under its original key instead of being renamed to "sn" (while ASSETNUM is
removed and height becomes h as described). The claimed output, whose key
list would be ["sn", "h"], is not produced. -/
theorem compress_properties_scenario1_actual :
    compress_properties
      [("Nombre científico", J.str "Ceiba pentandra"),
       ("ASSETNUM", J.str "12345"),
       ("height", J.num 30.2)]
      = [("Nombre científico", J.str "Ceiba pentandra"), ("h", J.num 30.2)] ∧
    (compress_properties
      [("Nombre científico", J.str "Ceiba pentandra"),
       ("ASSETNUM", J.str "12345"),
       ("height", J.num 30.2)]).map Prod.fst ≠ ["sn", "h"] := by
  constructor
  · rfl
  · decide

/-- C4 counterexample: round_coordinates applied to the empty list does not
return the empty list (it fails: the source inspects coords[0] first, an
IndexError, modelled as none). -/
theorem round_coordinates_empty_cex :
    ¬ (round_coordinates (J.arr []) = some (J.arr [])) := by
  intro h
  have h2 : (none : Option J) = some (J.arr []) := h
  exact Option.noConfusion h2

/-- C4 amended: round_coordinates applied to an empty coordinate list fails
with an index error from inspecting the first element; it does not return
an empty list. -/
theorem round_coordinates_empty_amended :
    round_coordinates (J.arr []) = none := rfl

lemma roundIdealList_nil : roundIdealList [] = [] := rfl

lemma roundIdealList_cons (x : J) (xs : List J) :
    roundIdealList (x :: xs) = roundIdeal x :: roundIdealList xs := rfl

lemma mapM_roundLeaf_of_all_num :
    ∀ l : List J, l.all isNum = true → l.mapM roundLeaf = some (roundIdealList l) := by
  intro l
  induction l with
  | nil => intro _; rfl
  | cons x xs ih =>
    intro h
    rw [List.all_cons, Bool.and_eq_true] at h
    cases x with
    | num q =>
      rw [List.mapM_cons, ih h.2]
      simp [roundLeaf, roundIdealList_cons, roundIdeal]
    | null => simp [isNum] at h
    | bool b => simp [isNum] at h
    | str s => simp [isNum] at h
    | arr xs2 => simp [isNum] at h
    | obj kvs => simp [isNum] at h

lemma roundEach_of_forall :
    ∀ l : List J, (∀ c ∈ l, round_coordinates c = some (roundIdeal c)) →
      roundEach l = some (roundIdealList l) := by
  intro l
  induction l with
  | nil => intro _; rfl
  | cons x xs ih =>
    intro h
    have hx := h x (List.mem_cons_self _ _)
    have hxs := ih (fun c hc => h c (List.mem_cons_of_mem _ hc))
    simp [roundEach, hx, hxs, roundIdealList_cons]

lemma homog_is_arr (n : Nat) (T : J) (h : homog n T = true) :
    ∃ x xs, T = J.arr (x :: xs) := by
  cases n with
  | zero =>
    cases T with
    | arr xs =>
      cases xs with
      | nil => simp [homog] at h
      | cons x xs2 => exact ⟨x, xs2, rfl⟩
    | null => simp [homog] at h
    | bool b => simp [homog] at h
    | num q => simp [homog] at h
    | str s => simp [homog] at h
    | obj kvs => simp [homog] at h
  | succ n =>
    cases T with
    | arr xs =>
      cases xs with
      | nil => simp [homog] at h
      | cons x xs2 => exact ⟨x, xs2, rfl⟩
    | null => simp [homog] at h
    | bool b => simp [homog] at h
    | num q => simp [homog] at h
    | str s => simp [homog] at h
    | obj kvs => simp [homog] at h

lemma round_coordinates_of_homog :
    ∀ (n : Nat) (T : J), homog n T = true →
      round_coordinates T = some (roundIdeal T) := by
  intro n
  induction n with
  | zero =>
    intro T h
    rcases homog_is_arr 0 T h with ⟨x, xs, rfl⟩
    have hall : (x :: xs).all isNum = true := by
      rw [homog, Bool.and_eq_true] at h
      exact h.2
    have hx : isNum x = true := by
      have h2 := hall
      rw [List.all_cons, Bool.and_eq_true] at h2
      exact h2.1
    cases x with
    | num q =>
      show (((J.num q) :: xs).mapM roundLeaf).map J.arr = _
      rw [mapM_roundLeaf_of_all_num _ hall]
      rfl
    | null => simp [isNum] at hx
    | bool b => simp [isNum] at hx
    | str s => simp [isNum] at hx
    | arr xs2 => simp [isNum] at hx
    | obj kvs => simp [isNum] at hx
  | succ n ih =>
    intro T h
    rcases homog_is_arr (n + 1) T h with ⟨x, xs, rfl⟩
    have hall : (x :: xs).all (homog n) = true := by
      rw [homog, Bool.and_eq_true] at h
      exact h.2
    have hx : homog n x = true := by
      have h2 := hall
      rw [List.all_cons, Bool.and_eq_true] at h2
      exact h2.1
    rcases homog_is_arr n x hx with ⟨y, ys, rfl⟩
    have heach : roundEach (J.arr (y :: ys) :: xs) =
        some (roundIdealList (J.arr (y :: ys) :: xs)) := by
      refine roundEach_of_forall _ ?_
      intro c hc
      have hc2 : homog n c = true := by
        rw [List.all_eq_true] at hall
        exact hall c hc
      exact ih c hc2
    show (roundEach (J.arr (y :: ys) :: xs)).map J.arr = _
    rw [heach]
    rfl

mutual
theorem shape_roundIdeal (T : J) : shape (roundIdeal T) = shape T := by
  cases T with
  | arr xs =>
    show JShape.node (shapeList (roundIdealList xs)) = JShape.node (shapeList xs)
    rw [shapeList_roundIdealList xs]
  | null => rfl
  | bool b => rfl
  | num q => rfl
  | str s => rfl
  | obj kvs => rfl

theorem shapeList_roundIdealList (l : List J) :
    shapeList (roundIdealList l) = shapeList l := by
  cases l with
  | nil => rfl
  | cons x xs =>
    show shape (roundIdeal x) :: shapeList (roundIdealList xs) = _
    rw [shape_roundIdeal x, shapeList_roundIdealList xs]
    rfl
end

set_option maxRecDepth 40000

/-- C2: on every homogeneously nested coordinate tree, round_coordinates
succeeds and computes exactly the structure-preserving map that applies the
round-half-to-even 6-decimal rounding round6 to every numeric leaf; that
map preserves the nesting shape and element counts of every value; and the
spec scenario [-74.0821234567, 4.6097654321] evaluates to
[-74.082123, 4.609765]. -/
theorem round_coordinates_homog_correct :
    (∀ (n : Nat) (T : J), homog n T = true →
      round_coordinates T = some (roundIdeal T)) ∧
    (∀ T : J, shape (roundIdeal T) = shape T) ∧
    round_coordinates (J.arr [J.num (-74.0821234567), J.num 4.6097654321])
      = some (J.arr [J.num (-74.082123), J.num 4.609765]) := by
  refine ⟨round_coordinates_of_homog, shape_roundIdeal, ?_⟩
  with_unfolding_all rfl

/-- Witness for C2 at the spec scenario-3 position: the tree is homogeneous
at depth 0 and the theorem applies to it. -/
theorem round_coordinates_homog_correct_witness :
    homog 0 (J.arr [J.num (-74.0821234567), J.num 4.6097654321]) = true ∧
    round_coordinates (J.arr [J.num (-74.0821234567), J.num 4.6097654321])
      = some (roundIdeal (J.arr [J.num (-74.0821234567), J.num 4.6097654321])) :=
  ⟨rfl, round_coordinates_homog_correct.1 0
    (J.arr [J.num (-74.0821234567), J.num 4.6097654321]) rfl⟩

lemma any_of_lookup_some (m : List (String × J)) (k : String) (v : J)
    (h : lookup m k = some v) : m.any (fun kv => kv.1 == k) = true := by
  unfold lookup at h
  cases hf : m.find? (fun kv => kv.1 == k) with
  | none =>
    rw [hf] at h
    simp at h
  | some a =>
    rw [List.any_eq_true]
    refine ⟨a, List.mem_of_find?_eq_some hf, ?_⟩
    have hpa := List.find?_some (p := fun kv : String × J => kv.1 == k) hf
    exact hpa

/-- C6: the document transform touches only the `features` entry of the
root object: whenever compressDoc succeeds, the output object has entries
in one-to-one positional correspondence with the input, every key is
unchanged, and every entry whose key is not `features` is identical. -/
theorem compressDoc_preserves_non_features (kvs : List (String × J)) (d2 : J)
    (h : compressDoc (J.obj kvs) = some d2) :
    ∃ kvs2, d2 = J.obj kvs2 ∧
      List.Forall₂ (fun a b : String × J => a.1 = b.1 ∧ (a.1 ≠ "features" → b = a))
        kvs kvs2 := by
  cases hf : lookup kvs "features" with
  | none =>
    simp only [compressDoc, hf, Option.some.injEq] at h
    refine ⟨kvs, h.symm, ?_⟩
    rw [List.forall₂_same]
    intro a _
    exact ⟨rfl, fun _ => rfl⟩
  | some fv =>
    cases fv with
    | arr fl =>
      simp only [compressDoc, hf] at h
      cases hm : fl.mapM compressFeature with
      | none =>
        rw [hm] at h
        simp at h
      | some fl2 =>
        rw [hm] at h
        simp only [Option.map_some', Option.some.injEq] at h
        refine ⟨dictSet kvs "features" (J.arr fl2), h.symm, ?_⟩
        unfold dictSet
        rw [if_pos (any_of_lookup_some kvs "features" (J.arr fl) hf)]
        rw [List.forall₂_map_right_iff]
        rw [List.forall₂_same]
        intro a _
        by_cases ha : (a.1 == "features") = true
        · have ha2 : a.1 = "features" := by simpa using ha
          simp [ha, ha2]
        · have ha2 : ¬ a.1 = "features" := by simpa using ha
          simp [ha, ha2]
    | null => simp [compressDoc, hf] at h
    | bool b => simp [compressDoc, hf] at h
    | num q => simp [compressDoc, hf] at h
    | str s => simp [compressDoc, hf] at h
    | obj kvs3 => simp [compressDoc, hf] at h

/-- Witness for C6 on a document with coordinate-reference metadata and no
features key: the transform succeeds and the conclusion holds. -/
theorem compressDoc_preserves_non_features_witness :
    compressDoc (J.obj [("crs", J.str "epsg4326")])
      = some (J.obj [("crs", J.str "epsg4326")]) ∧
    ∃ kvs2, J.obj [("crs", J.str "epsg4326")] = J.obj kvs2 ∧
      List.Forall₂ (fun a b : String × J => a.1 = b.1 ∧ (a.1 ≠ "features" → b = a))
        [("crs", J.str "epsg4326")] kvs2 :=
  ⟨rfl, compressDoc_preserves_non_features [("crs", J.str "epsg4326")]
    (J.obj [("crs", J.str "epsg4326")]) rfl⟩

/-- C9: a feature carrying a `properties` key bound to null (or to an empty
mapping) comes out of the feature transform with `properties` bound to the
empty mapping: the `if not props` guard of compress_properties returns the
empty dict, which is stored back under the key. -/
theorem compressFeature_null_properties (kvs : List (String × J)) (p d2 : J)
    (hp : lookup kvs "properties" = some p)
    (hnull : p = J.null ∨ p = J.obj [])
    (h : compressFeature (J.obj kvs) = some d2) :
    ∃ kvs2, d2 = J.obj kvs2 ∧ lookup kvs2 "properties" = some (J.obj []) := by
  have hcp : compress_properties_val p = some (J.obj []) := by
    rcases hnull with rfl | rfl <;> rfl
  simp only [compressFeature, hp, hcp, Option.map_some'] at h
  have hlk1 : lookup (dictSet kvs "properties" (J.obj [])) "properties"
      = some (J.obj []) := lookup_dictSet_self kvs "properties" (J.obj [])
  set kvs1 := dictSet kvs "properties" (J.obj []) with hkvs1
  cases hg : lookup kvs1 "geometry" with
  | none =>
    simp only [hg, Option.some.injEq] at h
    exact ⟨kvs1, h.symm, hlk1⟩
  | some g =>
    simp only [hg] at h
    by_cases ht : truthy g = true
    · rw [if_pos ht] at h
      cases g with
      | obj gkvs =>
        cases hc : lookup gkvs "coordinates" with
        | none =>
          simp only [hc, Option.some.injEq] at h
          exact ⟨kvs1, h.symm, hlk1⟩
        | some c =>
          simp only [hc] at h
          cases hr : round_coordinates c with
          | none =>
            simp [hr] at h
          | some c2 =>
            simp only [hr, Option.map_some', Option.some.injEq] at h
            refine ⟨dictSet kvs1 "geometry" (J.obj (dictSet gkvs "coordinates" c2)),
              h.symm, ?_⟩
            rw [lookup_dictSet_other _ _ _ _ (by rfl)]
            exact hlk1
      | null => simp at h
      | bool b => simp at h
      | num q => simp at h
      | str s => simp at h
      | arr xs => simp at h
    · rw [if_neg ht] at h
      simp only [Option.some.injEq] at h
      exact ⟨kvs1, h.symm, hlk1⟩

/-- Witness for C9 on a feature whose properties value is null. -/
theorem compressFeature_null_properties_witness :
    lookup [("properties", J.null), ("id", J.num 7)] "properties" = some J.null ∧
    compressFeature (J.obj [("properties", J.null), ("id", J.num 7)])
      = some (J.obj [("properties", J.obj []), ("id", J.num 7)]) ∧
    ∃ kvs2, J.obj [("properties", J.obj []), ("id", J.num 7)] = J.obj kvs2 ∧
      lookup kvs2 "properties" = some (J.obj []) :=
  ⟨rfl, rfl, compressFeature_null_properties
    [("properties", J.null), ("id", J.num 7)] J.null
    (J.obj [("properties", J.obj []), ("id", J.num 7)])
    rfl (Or.inl rfl) rfl⟩

/-- C5: in the in-place case (output path = input path, the only case main
uses), compress_geojson stats the input file only after overwriting it, so
the pair it returns reports the post-transform byte size twice: the
reported original size equals the reported compressed size (and the printed
reduction is 0), for every size function, file system and document. The
byte size before the transform, size d, is not what is returned. -/
theorem compress_geojson_inplace_sizes (size : J → ℕ) (p : String)
    (fs : String → Option J) (d d2 : J)
    (h1 : fs p = some d) (h2 : compressDoc d = some d2) :
    compress_geojson_model size p p fs
      = some ((size d2, size d2), fun q => if q = p then some d2 else fs q) := by
  unfold compress_geojson_model
  rw [h1]
  simp only [h2]
  simp

/-- Witness for C5: a one-feature document whose properties shrink,
compressed in place; the returned pair is (size after, size after). -/
theorem compress_geojson_inplace_sizes_witness :
    (fun q => if q = "district_1.geojson"
        then some (J.obj [("features", J.arr [J.obj [("properties",
          J.obj [("ASSETNUM", J.str "12345"), ("height", J.num 30.2)])]])])
        else none) "district_1.geojson"
      = some (J.obj [("features", J.arr [J.obj [("properties",
          J.obj [("ASSETNUM", J.str "12345"), ("height", J.num 30.2)])]])]) ∧
    compressDoc (J.obj [("features", J.arr [J.obj [("properties",
          J.obj [("ASSETNUM", J.str "12345"), ("height", J.num 30.2)])]])])
      = some (J.obj [("features", J.arr [J.obj [("properties",
          J.obj [("h", J.num 30.2)])]])]) ∧
    compress_geojson_model (fun _ => 0) "district_1.geojson" "district_1.geojson"
        (fun q => if q = "district_1.geojson"
          then some (J.obj [("features", J.arr [J.obj [("properties",
            J.obj [("ASSETNUM", J.str "12345"), ("height", J.num 30.2)])]])])
          else none)
      = some ((0, 0), fun q => if q = "district_1.geojson"
          then some (J.obj [("features", J.arr [J.obj [("properties",
            J.obj [("h", J.num 30.2)])]])])
          else (fun q => if q = "district_1.geojson"
            then some (J.obj [("features", J.arr [J.obj [("properties",
              J.obj [("ASSETNUM", J.str "12345"), ("height", J.num 30.2)])]])])
            else none) q) :=
  ⟨rfl, rfl,
    compress_geojson_inplace_sizes (fun _ => 0) "district_1.geojson" _ _ _ rfl rfl⟩

/-- C8: when the districts directory does not exist, or no file name
matches the district_*.geojson pattern, main returns after printing:
the file system is untouched and no file is processed (and the totals stay
zero). -/
theorem main_model_no_dir_or_no_files (size : J → ℕ) (dirExists : Bool)
    (names : List String) (fs : String → Option J)
    (h : dirExists = false ∨ names.filter matchesGlob = []) :
    main_model size dirExists names fs = some (fs, [], 0, 0) := by
  rcases h with rfl | hfilt
  · rfl
  · unfold main_model
    by_cases hd : dirExists = false
    · rw [if_pos hd]
    · rw [if_neg hd, hfilt]
      rfl

/-- Witness for C8: an existing directory whose listing holds no files at
all (so no match); main is the identity on the file system. -/
theorem main_model_no_dir_or_no_files_witness :
    (true = false ∨ List.filter matchesGlob [] = []) ∧
    main_model (fun _ => 0) true [] (fun _ => none)
      = some ((fun _ => none), [], 0, 0) :=
  ⟨Or.inr rfl,
    main_model_no_dir_or_no_files (fun _ => 0) true [] (fun _ => none) (Or.inr rfl)⟩

lemma foldl_pair_fst (l : List (String × J)) (a : List (String × J)) :
    ∀ b : List (String × J),
      l.foldl (fun st kv => (st.1, compressStep st.2 kv)) (a, b)
        = (a, l.foldl compressStep b) := by
  induction l with
  | nil => intro b; rfl
  | cons x xs ih => intro b; exact ih (compressStep b x)

/-- C10: compress_properties does not mutate its argument. In the
state-passing embedding of the function body, where the props argument is
threaded through the loop alongside the dict being built, the props
component comes back exactly as it went in, and the dict built is the
value compress_properties returns. -/
theorem compress_properties_st_frame (props : List (String × J)) :
    (compress_properties_st props).1 = props ∧
    (compress_properties_st props).2 = compress_properties props := by
  unfold compress_properties_st compress_properties
  rw [foldl_pair_fst props props []]
  exact ⟨rfl, rfl⟩

end CompressDistricts
